import Mathlib

/-!
Verification development for the out-of-core tensor management and batched
contraction pipeline of the `dh` package (files `pyscf/dh/dhutil.py` and
`pyscf/dh/polar/rdfdh.py`).

Modelling conventions (shallow embedding):
* A numpy array is modelled by `Arr`: a shape (list of extents) together with a
  flat list of rational entries (IEEE doubles are a subset of the rationals).
* A value stored in a `HybridDict` is modelled by `Val`:
  - `Val.mem a` — an in-memory numpy array;
  - `Val.disk n a` — an h5py dataset object: the name `n` under which it is
    linked in the backing file together with its content `a`.  An h5py dataset
    object remains readable after its link is removed from the file (HDF5
    keeps an open object alive), which is why the content travels with the
    handle;
  - `Val.raw` — any other Python object (tuples of kernels etc.); accessing
    its `.shape` raises `AttributeError`.
* The `HybridDict` itself is a `Store`: an association list `map` modelling
  the Python `dict` contents (string key to value, unique keys, first binding
  wins on lookup) plus `file`, an association list modelling the datasets
  linked in the backing HDF5 file (`self.chkfile`).
* Fallible Python code is modelled with `Except PyErr`; the `PyErr`
  constructors name the Python exception class raised.
-/

/-- A numpy `ndarray`: a shape together with flattened rational contents. -/
structure Arr where
  shape : List Nat
  data : List ℚ
  deriving DecidableEq

/-- A value stored in a `HybridDict`: an in-memory array, an h5py dataset
(with the name it is linked under in the backing file and its content), or a
shapeless Python object. -/
inductive Val where
  | mem (a : Arr)
  | disk (dsname : String) (a : Arr)
  | raw
  deriving DecidableEq

/-- Python exception classes raised by the modelled code. -/
inductive PyErr where
  | keyError
  | valueError
  | typeError
  | zeroDivisionError
  deriving DecidableEq

/-- Result of `HybridDict.load` (`np.asarray(self.get(key))`).  For a missing
key, `dict.get` returns `None` and `np.asarray(None)` yields a 0-d object
array wrapping `None` — no exception; this is `objNone`.  `objOther` is
`np.asarray` applied to a shapeless stored object. -/
inductive LoadResult where
  | arr (a : Arr)
  | objNone
  | objOther
  deriving DecidableEq

/-- Association-list lookup: the Python `dict` membership/access (keys are
unique in a `dict`; the first binding wins). -/
def alookup {β : Type} : List (String × β) → String → Option β
  | [], _ => none
  | (k', v) :: rest, k => if k' = k then some v else alookup rest k

/-- Remove every binding of key `k` (Python `del d[k]` / `d.pop(k)` on the
mapping part; a no-op when the key is absent, callers check presence). -/
def aerase {β : Type} : List (String × β) → String → List (String × β)
  | [], _ => []
  | (k', v) :: rest, k => if k' = k then aerase rest k else (k', v) :: aerase rest k

/-- Overwriting update `d[k] = v`. -/
def ains {β : Type} (m : List (String × β)) (k : String) (v : β) : List (String × β) :=
  (k, v) :: aerase m k

/-- Python `dict.setdefault(k, v)`: insert only when the key is absent. -/
def asetd {β : Type} (m : List (String × β)) (k : String) (v : β) : List (String × β) :=
  if (alookup m k).isSome then m else (k, v) :: m

/-- The `HybridDict` state: the dictionary contents plus the datasets linked
in the backing HDF5 file `self.chkfile`. -/
structure Store where
  map : List (String × Val)
  file : List (String × Arr)
  deriving DecidableEq

/-- The pair of artifacts written by `HybridDict.dump(h5_path, dat_path)`:
the copied backing file and the pickled dictionary of in-memory entries. -/
structure Checkpoint where
  h5 : List (String × Arr)
  dat : List (String × Val)
  deriving DecidableEq

/-- `a[:] = 0`: zero the contents in place, keeping the shape. -/
def zeroArr (a : Arr) : Arr :=
  ⟨a.shape, a.data.map (fun _ => 0)⟩

/-- `np.zeros(shape)`. -/
def zerosArr (sh : List Nat) : Arr :=
  ⟨sh, List.replicate (sh.foldr (fun x y => x * y) 1) 0⟩

/-- `self[name][:] = 0` on a stored value (only reached for values that have
a shape, i.e. arrays and datasets). -/
def zeroVal : Val → Val
  | Val.mem a => Val.mem (zeroArr a)
  | Val.disk n a => Val.disk n (zeroArr a)
  | Val.raw => Val.raw

/-- Whether a stored value is an h5py dataset (`isinstance(val, h5py.Dataset)`). -/
def Val.isDisk : Val → Bool
  | Val.disk _ _ => true
  | _ => false

/-- The guarded shape test `self[name].shape == shape` in `HybridDict.create`:
`some b` when the stored value has a shape attribute and the comparison gives
`b`; `none` when accessing `.shape` raises (`AttributeError` for shapeless
objects — this is the `except` branch of the source). -/
def matchesShape (v : Val) (shape : Option (List Nat)) : Option Bool :=
  match v with
  | Val.mem a => some (decide (some a.shape = shape))
  | Val.disk _ a => some (decide (some a.shape = shape))
  | Val.raw => none

/-- `HybridDict.delete` (dhutil.py lines 89-96): `val = self.pop(key)` —
`KeyError` when missing; if the value is an h5py dataset, `del
self.chkfile[key]` (note: keyed by `key`, not by the dataset's own name),
with a `KeyError` from the file silently passed (the link may already have
been removed via another aliasing key).  `aerase` on the file is a no-op for
an absent name, which models the `try/except KeyError: pass`. -/
def HybridDict.delete (s : Store) (key : String) : Except PyErr Store :=
  match alookup s.map key with
  | none => Except.error PyErr.keyError
  | some v =>
    if v.isDisk then Except.ok ⟨aerase s.map key, aerase s.file key⟩
    else Except.ok ⟨aerase s.map key, s.file⟩

/-- `HybridDict.load` (dhutil.py lines 98-99): `np.asarray(self.get(key))`.
A missing key yields `np.asarray(None)` — an object array, not an error. -/
def HybridDict.load (s : Store) (key : String) : LoadResult :=
  match alookup s.map key with
  | none => LoadResult.objNone
  | some (Val.mem a) => LoadResult.arr a
  | some (Val.disk _ a) => LoadResult.arr a
  | some Val.raw => LoadResult.objOther

/-- Content of the new dataset in `self.chkfile.create_dataset(name,
shape=shape, dtype=dtype, data=data)`: taken from `data` when given (h5py
raises on a shape/data mismatch), else zeros of `shape`; h5py raises
`TypeError` when neither determines an extent. -/
def contentFor (data : Option Val) (shape : Option (List Nat)) : Except PyErr Arr :=
  match data with
  | some (Val.mem a) =>
    match shape with
    | some sh => if sh = a.shape then Except.ok a else Except.error PyErr.valueError
    | none => Except.ok a
  | some (Val.disk _ a) =>
    match shape with
    | some sh => if sh = a.shape then Except.ok a else Except.error PyErr.valueError
    | none => Except.ok a
  | some Val.raw => Except.error PyErr.typeError
  | none =>
    match shape with
    | some sh => Except.ok (zerosArr sh)
    | none => Except.error PyErr.typeError

/-- The creation part of `HybridDict.create` (dhutil.py lines 77-87), run
after the existing-key check: for `incore=False`, `create_dataset` (which
raises `ValueError` when a dataset of that name already exists in the file)
then `setdefault`; for `incore=True`, `setdefault(name, data)` or
`setdefault(name, np.zeros(shape))`; else `ValueError("Could not handle
create!")`.  The returned value is `self.get(name)`, i.e. the previously
stored value when `setdefault` found the key present. -/
def createBody (s : Store) (name : String) (data : Option Val) (incore : Bool)
    (shape : Option (List Nat)) : Except PyErr (Store × Val) :=
  if incore = false then
    if (alookup s.file name).isSome then Except.error PyErr.valueError
    else
      match contentFor data shape with
      | Except.error e => Except.error e
      | Except.ok a =>
        Except.ok (⟨asetd s.map name (Val.disk name a), (name, a) :: s.file⟩,
          (alookup s.map name).getD (Val.disk name a))
  else
    match data with
    | some d => Except.ok (⟨asetd s.map name d, s.file⟩, (alookup s.map name).getD d)
    | none =>
      match shape with
      | some sh =>
        Except.ok (⟨asetd s.map name (Val.mem (zerosArr sh)), s.file⟩,
          (alookup s.map name).getD (Val.mem (zerosArr sh)))
      | none => Except.error PyErr.valueError

/-- `HybridDict.create` (dhutil.py lines 67-87).  When the key exists:
the guarded comparison `self[name].shape == shape` either succeeds with
`True` (zero in place — for a dataset this writes through to the linked file
copy — and return the same stored value), succeeds with `False` (fall
through to `createBody` with the key still present), or raises
(`AttributeError`; then `self.delete(name)` and fall through). -/
def HybridDict.create (s : Store) (name : String) (data : Option Val) (incore : Bool)
    (shape : Option (List Nat)) : Except PyErr (Store × Val) :=
  match alookup s.map name with
  | none => createBody s name data incore shape
  | some v =>
    match matchesShape v shape with
    | some true =>
      let file1 :=
        match v with
        | Val.disk n _ =>
          match alookup s.file n with
          | some fa => ains s.file n (zeroArr fa)
          | none => s.file
        | _ => s.file
      Except.ok (⟨ains s.map name (zeroVal v), file1⟩, zeroVal v)
    | some false => createBody s name data incore shape
    | none =>
      match HybridDict.delete s name with
      | Except.ok s1 => createBody s1 name data incore shape
      | Except.error e => Except.error e

/-- `HybridDict.dump` (dhutil.py lines 101-113): pickle every non-dataset
entry to `dat_path`; close the backing file and copy it to `h5_path`; reopen;
then `self[key] = self.chkfile[key]` for every dataset key of the reopened
file.  Returns the mutated store together with the checkpoint pair. -/
def HybridDict.dump (s : Store) : Store × Checkpoint :=
  let dct := s.map.filter (fun p => !(p.2.isDisk))
  let map1 := s.file.foldl (fun m p => ains m p.1 (Val.disk p.1 p.2)) s.map
  (⟨map1, s.file⟩, ⟨s.file, dct⟩)

/-- `HybridDict.pick` (dhutil.py lines 122-137): build a fresh store, replace
its (discarded) private backing file by a copy of `h5_path`, bind every
dataset key of that file, then `tensors.update` with the unpickled in-memory
entries (which override). -/
def HybridDict.pick (cp : Checkpoint) : Store :=
  let map0 := cp.h5.foldl (fun m p => ains m p.1 (Val.disk p.1 p.2))
    ([] : List (String × Val))
  ⟨cp.dat.foldl (fun m p => ains m p.1 p.2) map0, cp.h5⟩

/-- Python `range(start, stop, step)` for a positive step. -/
def rangeStep (start stop step : Nat) : List Nat :=
  if _h : 0 < step ∧ start < stop then start :: rangeStep (start + step) stop step
  else []
termination_by stop - start
decreasing_by omega

/-- `gen_batch` (dhutil.py lines 158-159):
`[slice(i, (i + nbatch) if i + nbatch < maxval else maxval)
  for i in range(minval, maxval, nbatch)]`,
with a slice `slice(a, b)` modelled as the pair `(a, b)`. -/
def gen_batch (minval maxval nbatch : Nat) : List (Nat × Nat) :=
  (rangeStep minval maxval nbatch).map
    (fun i => (i, if i + nbatch < maxval then i + nbatch else maxval))

/-- `calc_batch_size` (dhutil.py lines 168-173).  Arithmetic is Python float
arithmetic, modelled exactly over `ℚ` (the literal `0.8` is taken as `8/10`;
the claims settled below do not depend on its binary rounding).  Python float
floor division `//` is `Int.floor` of the quotient and raises
`ZeroDivisionError` when the divisor is zero; `int(max(x, 1))` on a value
that is at least `1` is the floor itself.  The `print` on line 170 is an
output side effect with no bearing on the result and is not modelled. -/
def calc_batch_size (unit_flop mem_avail pre_flop : ℚ) : Except PyErr ℤ :=
  let max_memory := (8 / 10 : ℚ) * mem_avail - pre_flop * 8 / 1024 ^ 2
  let divisor := unit_flop * 8 / 1024 ^ 2
  if divisor = 0 then Except.error PyErr.zeroDivisionError
  else Except.ok (max ⌊max_memory / divisor⌋ 1)

/-- `restricted_biorthogonalize` (dhutil.py lines 201-215).  The tensor
`t_ijab` has its leading axes folded into one index of type `ι` and its last
two axes indexed by `α`; entries are doubles, modelled in `ℚ`.  The general
branch computes `res = coef_1 * transpose + coef_0 * t_ijab` via
`lib.transpose`, the guarded branch (`abs(coef_1) < 1e-7`) only the scalar
scaling.  Both branches are total: the short-circuit never raises. -/
def restricted_biorthogonalize {ι α : Type} (t_ijab : ι → α → α → ℚ)
    (cc c_os c_ss : ℚ) : ι → α → α → ℚ :=
  let coef_0 := cc * (c_os + c_ss)
  let coef_1 := -(cc * c_ss)
  if |coef_1| < 1 / 10 ^ 7 then
    fun i a b => coef_0 * t_ijab i a b
  else
    fun i a b => coef_1 * t_ijab i b a + coef_0 * t_ijab i a b

/-- The stages invoked by the polarizability pipeline orchestrator
(`kernel` in polar/rdfdh.py). -/
inductive Stage where
  | run_scf
  | prepare_H_1
  | prepare_integral
  | prepare_xc_kernel
  | prepare_pt2
  | prepare_lagrangian
  | prepare_D_r
  | prepare_U_1
  | prepare_dmU
  | prepare_polar_Ax1_gga
  | prepare_pdA_F_0_mo
  | prepare_pdA_Y_ia_ri
  | prepare_pt2_deriv
  | prepare_polar
  deriving DecidableEq

/-- The trace of stage invocations performed by `kernel` (polar/rdfdh.py
lines 14-30), as a function of the one input it branches on:
`isGGA` stands for `dft.numint.NumInt()._xc_type(mf_dh.xc) == "GGA"`
(the exchange-correlation functional being classified gradient-corrected). -/
def kernelStages (isGGA : Bool) : List Stage :=
  [Stage.run_scf, Stage.prepare_H_1, Stage.prepare_integral, Stage.prepare_xc_kernel,
    Stage.prepare_pt2, Stage.prepare_lagrangian, Stage.prepare_D_r, Stage.prepare_U_1]
  ++ (if isGGA then [Stage.prepare_dmU, Stage.prepare_polar_Ax1_gga] else [])
  ++ [Stage.prepare_pdA_F_0_mo, Stage.prepare_pdA_Y_ia_ri, Stage.prepare_pt2_deriv,
    Stage.prepare_polar]

/-! ### Association-list lemmas -/

theorem alookup_aerase {β : Type} (m : List (String × β)) (k x : String) :
    alookup (aerase m k) x = if x = k then none else alookup m x := by
  induction m with
  | nil => simp [aerase, alookup]
  | cons p rest ih =>
    obtain ⟨a, b⟩ := p
    by_cases hak : a = k
    · subst hak
      by_cases hax : x = a
      · subst hax
        simp [aerase, alookup, ih]
      · have hax' : ¬ a = x := fun hc => hax hc.symm
        simp [aerase, alookup, ih, hax, hax']
    · by_cases hax : a = x
      · subst hax
        have hxk : ¬ a = k := hak
        simp [aerase, alookup, hak, hxk]
      · simp [aerase, alookup, hak, hax, ih]

theorem alookup_ains {β : Type} (m : List (String × β)) (k x : String) (v : β) :
    alookup (ains m k v) x = if x = k then some v else alookup m x := by
  by_cases hxk : x = k
  · simp [ains, alookup, hxk]
  · have : ¬ k = x := fun hc => hxk hc.symm
    simp [ains, alookup, this, alookup_aerase, hxk]

theorem alookup_asetd {β : Type} (m : List (String × β)) (k : String) (v : β) :
    alookup (asetd m k v) k = some ((alookup m k).getD v) := by
  unfold asetd
  cases h : alookup m k with
  | none => simp [h, alookup]
  | some w => simp [h]

theorem alookup_asetd_ne {β : Type} (m : List (String × β)) (k x : String) (v : β)
    (hxk : x ≠ k) : alookup (asetd m k v) x = alookup m x := by
  unfold asetd
  cases h : alookup m k with
  | none =>
    have : ¬ k = x := fun hc => hxk hc.symm
    simp [alookup, this]
  | some w => simp

theorem alookup_mem {β : Type} {m : List (String × β)} {k : String} {v : β}
    (h : alookup m k = some v) : (k, v) ∈ m := by
  induction m with
  | nil => simp [alookup] at h
  | cons p rest ih =>
    by_cases hpk : p.1 = k
    · simp only [alookup, if_pos hpk] at h
      cases p with
      | mk a b =>
        simp only at hpk
        subst hpk
        cases h
        exact List.mem_cons_self _ _
    · simp only [alookup, if_neg hpk] at h
      exact List.mem_cons_of_mem _ (ih h)

theorem alookup_eq_none_of_not_mem_keys {β : Type} {m : List (String × β)} {k : String}
    (h : k ∉ m.map Prod.fst) : alookup m k = none := by
  induction m with
  | nil => rfl
  | cons p rest ih =>
    simp only [List.map_cons, List.mem_cons, not_or] at h
    have : ¬ p.1 = k := fun hc => h.1 hc.symm
    simp [alookup, this, ih h.2]

theorem alookup_foldl_ains {β γ : Type} (g : String → γ → β) :
    ∀ (l : List (String × γ)) (m : List (String × β)) (k : String),
      (l.map Prod.fst).Nodup →
      alookup (l.foldl (fun m p => ains m p.1 (g p.1 p.2)) m) k
        = match alookup l k with
          | some c => some (g k c)
          | none => alookup m k := by
  intro l
  induction l with
  | nil =>
    intro m k _
    simp [alookup]
  | cons p rest ih =>
    intro m k hnd
    obtain ⟨a, c⟩ := p
    simp only [List.map_cons, List.nodup_cons] at hnd
    rw [List.foldl_cons, ih _ k hnd.2]
    by_cases hak : a = k
    · subst hak
      have hnone : alookup rest a = none := alookup_eq_none_of_not_mem_keys hnd.1
      simp [alookup, hnone, alookup_ains]
    · have hka : ¬ k = a := fun hc => hak hc.symm
      cases h : alookup rest k <;> simp [alookup, hak, alookup_ains, alookup_aerase, hka, h]

theorem alookup_filter :
    ∀ (m : List (String × Val)) (k : String), (m.map Prod.fst).Nodup →
      alookup (m.filter (fun p => !(p.2.isDisk))) k
        = match alookup m k with
          | some v => if !(v.isDisk) then some v else none
          | none => none := by
  intro m
  induction m with
  | nil =>
    intro k _
    simp [alookup]
  | cons p rest ih =>
    intro k hnd
    obtain ⟨a, v⟩ := p
    simp only [List.map_cons, List.nodup_cons] at hnd
    by_cases hak : a = k
    · subst hak
      have hnone : alookup rest a = none := alookup_eq_none_of_not_mem_keys hnd.1
      by_cases hq : (!(v.isDisk)) = true
      · simp [List.filter_cons, hq, alookup]
      · simp [List.filter_cons, hq, alookup, ih a hnd.2, hnone]
    · by_cases hq : (!(v.isDisk)) = true
      · simp [List.filter_cons, hq, alookup, hak, ih k hnd.2]
      · simp [List.filter_cons, hq, alookup, hak, ih k hnd.2]

theorem nodup_keys_filter (m : List (String × Val))
    (hnd : (m.map Prod.fst).Nodup) :
    ((m.filter (fun p => !(p.2.isDisk))).map Prod.fst).Nodup :=
  List.Nodup.sublist (List.Sublist.map Prod.fst (List.filter_sublist m)) hnd

/-! ### Batch-planner lemmas -/

theorem rangeStep_eq (start stop step : Nat) (hs : 0 < step) :
    rangeStep start stop step =
      if start < stop then start :: rangeStep (start + step) stop step else [] := by
  rw [rangeStep]
  by_cases h : start < stop
  · rw [dif_pos ⟨hs, h⟩, if_pos h]
  · rw [dif_neg (fun hc => h hc.2), if_neg h]

theorem gen_batch_nil (start stop chunk : Nat) (h : ¬ start < stop) :
    gen_batch start stop chunk = [] := by
  unfold gen_batch
  rw [rangeStep]
  rw [dif_neg (fun hc => h hc.2)]
  rfl

theorem gen_batch_cons (start stop chunk : Nat) (hc : 0 < chunk) (h : start < stop) :
    gen_batch start stop chunk
      = (start, if start + chunk < stop then start + chunk else stop)
        :: gen_batch (start + chunk) stop chunk := by
  unfold gen_batch
  rw [rangeStep_eq _ _ _ hc, if_pos h, List.map_cons]

theorem gen_batch_main (chunk : Nat) (hc : 0 < chunk) :
    ∀ fuel stop start, stop - start ≤ fuel → start ≤ stop →
      ((gen_batch start stop chunk).map (fun p => List.range' p.1 (p.2 - p.1))).flatten
          = List.range' start (stop - start)
      ∧ (∀ p ∈ (gen_batch start stop chunk).dropLast, p.2 = p.1 + chunk)
      ∧ (∀ p, (gen_batch start stop chunk).getLast? = some p → p.2 = stop)
      ∧ (∀ p, (gen_batch start stop chunk).head? = some p → p.1 = start)
      ∧ (start = stop → gen_batch start stop chunk = []) := by
  intro fuel
  induction fuel with
  | zero =>
    intro stop start h1 h2
    have heq : ¬ start < stop := by omega
    have hnil := gen_batch_nil start stop chunk heq
    have h0 : stop - start = 0 := by omega
    rw [hnil, h0]
    refine ⟨by simp, by simp, by simp, by simp, fun _ => rfl⟩
  | succ n ih =>
    intro stop start h1 h2
    by_cases hlt : start < stop
    · rw [gen_batch_cons start stop chunk hc hlt]
      by_cases hend : start + chunk < stop
      · have htail := ih stop (start + chunk) (by omega) (by omega)
        obtain ⟨tCov, tLen, tLast, _, _⟩ := htail
        rw [if_pos hend]
        have htne : gen_batch (start + chunk) stop chunk ≠ [] := by
          rw [gen_batch_cons _ _ _ hc hend]
          simp
        refine ⟨?_, ?_, ?_, ?_, ?_⟩
        · rw [List.map_cons, List.flatten_cons, tCov]
          have harith : start + chunk - start = chunk := by omega
          rw [harith]
          have happ := List.range'_append start chunk (stop - (start + chunk)) 1
          simp only [one_mul] at happ
          rw [happ]
          congr 1
          omega
        · intro p hp
          rw [List.dropLast_cons_of_ne_nil htne] at hp
          rcases List.mem_cons.mp hp with h | h
          · subst h
            rfl
          · exact tLen p h
        · intro p hp
          obtain ⟨q, t, ht⟩ : ∃ q t, gen_batch (start + chunk) stop chunk = q :: t := by
            cases hg : gen_batch (start + chunk) stop chunk with
            | nil => exact absurd hg htne
            | cons q t => exact ⟨q, t, rfl⟩
          rw [ht] at hp
          rw [List.getLast?_cons_cons] at hp
          exact tLast p (by rw [ht]; exact hp)
        · intro p hp
          rw [List.head?_cons] at hp
          cases hp
          rfl
        · intro h
          omega
      · rw [if_neg hend]
        have htail_nil : gen_batch (start + chunk) stop chunk = [] :=
          gen_batch_nil _ _ _ (by omega)
        rw [htail_nil]
        refine ⟨?_, ?_, ?_, ?_, ?_⟩
        · simp
        · simp
        · intro p hp
          rw [List.getLast?_singleton] at hp
          cases hp
          rfl
        · intro p hp
          rw [List.head?_cons] at hp
          cases hp
          rfl
        · intro h
          omega
    · have hnil := gen_batch_nil start stop chunk hlt
      have h0 : stop - start = 0 := by omega
      rw [hnil, h0]
      refine ⟨by simp, by simp, by simp, by simp, fun _ => rfl⟩

/-! ### Claim theorems -/

/-- C2: for every `(start, stop, chunk)` with `chunk ≥ 1` and `start ≤ stop`,
the slices returned by `gen_batch` exactly partition the half-open range
`[start, stop)`: the concatenation of the slices' index ranges is the single
contiguous run `[start, stop)` (hence contiguous, no gaps, no overlaps),
every slice except possibly the last has length `chunk`, the first slice
starts at `start`, the last slice's stop equals `stop`, and `start = stop`
yields the empty sequence. -/
theorem gen_batch_partitions (start stop chunk : Nat) (hc : 1 ≤ chunk) (hss : start ≤ stop) :
    ((gen_batch start stop chunk).map (fun p => List.range' p.1 (p.2 - p.1))).flatten
        = List.range' start (stop - start)
    ∧ (∀ p ∈ (gen_batch start stop chunk).dropLast, p.2 = p.1 + chunk)
    ∧ (∀ p, (gen_batch start stop chunk).getLast? = some p → p.2 = stop)
    ∧ (∀ p, (gen_batch start stop chunk).head? = some p → p.1 = start)
    ∧ (start = stop → gen_batch start stop chunk = []) :=
  gen_batch_main chunk hc (stop - start) stop start le_rfl hss

/-- C2 witness: the partition property evaluated at `(start, stop, chunk) =
(1, 6, 2)`. -/
theorem gen_batch_partitions_witness :
    1 ≤ 2 ∧ 1 ≤ 6
    ∧ (((gen_batch 1 6 2).map (fun p => List.range' p.1 (p.2 - p.1))).flatten
          = List.range' 1 (6 - 1)
        ∧ (∀ p ∈ (gen_batch 1 6 2).dropLast, p.2 = p.1 + 2)
        ∧ (∀ p, (gen_batch 1 6 2).getLast? = some p → p.2 = 6)
        ∧ (∀ p, (gen_batch 1 6 2).head? = some p → p.1 = 1)
        ∧ (1 = 6 → gen_batch 1 6 2 = [])) :=
  ⟨by decide, by decide, gen_batch_partitions 1 6 2 (by decide) (by decide)⟩

/-- C4: the trace of stage invocations of the polarizability `kernel` is one
fixed sequence with exactly one conditional branch: `prepare_dmU` and
`prepare_polar_Ax1_gga` run if and only if the functional is classified GGA,
and with those two stages removed the trace is the same fixed 12-stage path
for both classifications (no other stage invocation depends on any input);
the GGA variant is exactly the non-GGA path with the two stages inserted
after the first eight. -/
theorem kernel_schedule_fixed (g : Bool) :
    (Stage.prepare_dmU ∈ kernelStages g ↔ g = true)
    ∧ (Stage.prepare_polar_Ax1_gga ∈ kernelStages g ↔ g = true)
    ∧ (kernelStages g).filter
        (fun st => decide (st ≠ Stage.prepare_dmU) && decide (st ≠ Stage.prepare_polar_Ax1_gga))
        = kernelStages false
    ∧ kernelStages false
        = [Stage.run_scf, Stage.prepare_H_1, Stage.prepare_integral, Stage.prepare_xc_kernel,
            Stage.prepare_pt2, Stage.prepare_lagrangian, Stage.prepare_D_r, Stage.prepare_U_1,
            Stage.prepare_pdA_F_0_mo, Stage.prepare_pdA_Y_ia_ri, Stage.prepare_pt2_deriv,
            Stage.prepare_polar]
    ∧ kernelStages true
        = (kernelStages false).take 8
          ++ [Stage.prepare_dmU, Stage.prepare_polar_Ax1_gga]
          ++ (kernelStages false).drop 8 := by
  cases g <;> exact ⟨by decide, by decide, by decide, by decide, by decide⟩

/-- C6 (the code evaluated at the failing input): `calc_batch_size(0, 100, 0)`
raises `ZeroDivisionError` — the divisor `unit_flop * 8 / 1024**2` is `0.0`
and Python float floor division by zero raises — contradicting the claimed
behaviour of treating a zero unit cost as an unconstrained chunk size. -/
theorem calc_batch_size_zero_unit_raises :
    calc_batch_size 0 100 0 = Except.error PyErr.zeroDivisionError := by
  norm_num [calc_batch_size]

/-- C7: for every strictly positive unit cost and arbitrary (possibly
negative) memory budget and baseline cost, `calc_batch_size` returns an
integer at least `1`; when the safety-scaled budget minus the baseline is
already zero or negative it returns exactly `1`. -/
theorem calc_batch_size_ge_one (unit_flop mem_avail pre_flop : ℚ) (hu : 0 < unit_flop) :
    ∃ n : ℤ, calc_batch_size unit_flop mem_avail pre_flop = Except.ok n ∧ 1 ≤ n
      ∧ ((8 / 10 : ℚ) * mem_avail - pre_flop * 8 / 1024 ^ 2 ≤ 0 → n = 1) := by
  have hd : (0 : ℚ) < unit_flop * 8 / 1024 ^ 2 := by positivity
  refine ⟨max ⌊((8 / 10 : ℚ) * mem_avail - pre_flop * 8 / 1024 ^ 2)
      / (unit_flop * 8 / 1024 ^ 2)⌋ 1, ?_, le_max_right _ _, ?_⟩
  · simp only [calc_batch_size]
    rw [if_neg (ne_of_gt hd)]
  · intro hneg
    have hq : ((8 / 10 : ℚ) * mem_avail - pre_flop * 8 / 1024 ^ 2)
        / (unit_flop * 8 / 1024 ^ 2) ≤ 0 := div_nonpos_of_nonpos_of_nonneg hneg hd.le
    exact max_eq_right ((Int.floor_nonpos hq).trans zero_le_one)

/-- C7 witness: a negative budget with positive unit cost still yields
`Except.ok 1`. -/
theorem calc_batch_size_ge_one_witness :
    (0 : ℚ) < 1
    ∧ ∃ n : ℤ, calc_batch_size 1 (-5) 2 = Except.ok n ∧ 1 ≤ n
        ∧ ((8 / 10 : ℚ) * (-5) - 2 * 8 / 1024 ^ 2 ≤ 0 → n = 1) :=
  ⟨by norm_num, calc_batch_size_ge_one 1 (-5) 2 (by norm_num)⟩

/-- C9: `restricted_biorthogonalize` computes
`cc * ((c_os + c_ss) * t - c_ss * (swap of the last two axes of t))` on the
general path, and when the same-spin coefficient magnitude `|cc * c_ss|` is
below the `1e-7` tolerance the transpose path is skipped: the output is the
scalar-scaled input `cc * (c_os + c_ss) * t`, and it agrees with the
general-path formula at that coefficient up to `1e-7 * |t|` entrywise.  Both
branches are total functions: the short-circuit never raises. -/
theorem restricted_biorthogonalize_spec {ι α : Type} (t : ι → α → α → ℚ)
    (cc c_os c_ss : ℚ) (i : ι) (a b : α) :
    (¬ |cc * c_ss| < 1 / 10 ^ 7 →
        restricted_biorthogonalize t cc c_os c_ss i a b
          = cc * ((c_os + c_ss) * t i a b - c_ss * t i b a))
    ∧ (|cc * c_ss| < 1 / 10 ^ 7 →
        restricted_biorthogonalize t cc c_os c_ss i a b = cc * (c_os + c_ss) * t i a b
        ∧ |restricted_biorthogonalize t cc c_os c_ss i a b
              - cc * ((c_os + c_ss) * t i a b - c_ss * t i b a)|
            ≤ 1 / 10 ^ 7 * |t i b a|) := by
  simp only [restricted_biorthogonalize, abs_neg]
  by_cases h : |cc * c_ss| < 1 / 10 ^ 7
  · rw [if_pos h]
    refine ⟨fun hc => absurd h hc, fun _ => ⟨by ring, ?_⟩⟩
    have heq : cc * (c_os + c_ss) * t i a b
        - cc * ((c_os + c_ss) * t i a b - c_ss * t i b a) = cc * c_ss * t i b a := by
      ring
    rw [heq, abs_mul]
    exact mul_le_mul_of_nonneg_right h.le (abs_nonneg _)
  · rw [if_neg h]
    exact ⟨fun _ => by ring, fun hc => absurd hc h⟩

/-- C9 witness: the short-circuit case evaluated at a constant tensor with
`cc = 1`, `c_os = 1`, `c_ss = 0`. -/
theorem restricted_biorthogonalize_spec_witness :
    restricted_biorthogonalize (fun _ _ _ => (3 : ℚ)) 1 1 0 () () ()
      = 1 * (1 + 0) * 3 :=
  ((restricted_biorthogonalize_spec (fun _ _ _ => (3 : ℚ)) 1 1 0 () () ()).2
    (by norm_num)).1

/-- C5 counterexample: `load` on a missing key does not signal a not-found
error.  On the empty store, `load "x"` evaluates `np.asarray(self.get("x"))`
with `self.get("x") = None` and returns an object array wrapping `None` — a
substitute value, no exception (the model of `load` has no error outcome at
all).  This refutes the load half of the claim as stated. -/
theorem load_missing_returns_substitute :
    HybridDict.load ⟨[], []⟩ "x" = LoadResult.objNone := rfl

/-- C5 amended: for every key not in the store, `delete` signals a not-found
error (`KeyError` from `self.pop(key)`), but `load` does not — it silently
returns `np.asarray(None)`, an object-array substitute value. -/
theorem delete_missing_raises_load_does_not (s : Store) (key : String)
    (h : alookup s.map key = none) :
    HybridDict.delete s key = Except.error PyErr.keyError
    ∧ HybridDict.load s key = LoadResult.objNone := by
  unfold HybridDict.delete HybridDict.load
  rw [h]
  exact ⟨rfl, rfl⟩

/-- C5 witness: the amended behaviour at the empty store and key "y". -/
theorem delete_missing_raises_witness :
    HybridDict.delete ⟨[], []⟩ "y" = Except.error PyErr.keyError
    ∧ HybridDict.load ⟨[], []⟩ "y" = LoadResult.objNone :=
  delete_missing_raises_load_does_not ⟨[], []⟩ "y" rfl

/-- C8: when two distinct live keys reference the same physical dataset,
deleting the first succeeds and leaves the second present and loadable
(an h5py dataset object stays readable after its link is removed), and a
subsequent delete of the second key also succeeds — the `try/except
KeyError: pass` silently tolerates the dataset link having already been
removed via the other aliasing key, and the store is left consistent. -/
theorem delete_alias_safe (s : Store) (k1 k2 n : String) (a : Arr)
    (hne : k1 ≠ k2)
    (h1 : alookup s.map k1 = some (Val.disk n a))
    (h2 : alookup s.map k2 = some (Val.disk n a)) :
    ∃ s1, HybridDict.delete s k1 = Except.ok s1
      ∧ alookup s1.map k2 = some (Val.disk n a)
      ∧ HybridDict.load s1 k2 = LoadResult.arr a
      ∧ ∃ s2, HybridDict.delete s1 k2 = Except.ok s2 ∧ alookup s2.map k2 = none := by
  have hl2 : alookup (aerase s.map k1) k2 = some (Val.disk n a) := by
    rw [alookup_aerase, if_neg (fun hc => hne hc.symm), h2]
  refine ⟨⟨aerase s.map k1, aerase s.file k1⟩, ?_, hl2, ?_, ?_⟩
  · unfold HybridDict.delete
    rw [h1]
    rfl
  · unfold HybridDict.load
    rw [hl2]
  · refine ⟨⟨aerase (aerase s.map k1) k2, aerase (aerase s.file k1) k2⟩, ?_, ?_⟩
    · unfold HybridDict.delete
      rw [hl2]
      rfl
    · rw [alookup_aerase, if_pos rfl]

/-- C8 witness: a concrete store in which keys "a" and "b" alias dataset
"d"; deleting "a" keeps "b" loadable, deleting "b" afterwards succeeds. -/
theorem delete_alias_safe_witness :
    ∃ s1, HybridDict.delete
        ⟨[("a", Val.disk "d" ⟨[1], [9]⟩), ("b", Val.disk "d" ⟨[1], [9]⟩)],
          [("d", ⟨[1], [9]⟩)]⟩ "a" = Except.ok s1
      ∧ alookup s1.map "b" = some (Val.disk "d" ⟨[1], [9]⟩)
      ∧ HybridDict.load s1 "b" = LoadResult.arr ⟨[1], [9]⟩
      ∧ ∃ s2, HybridDict.delete s1 "b" = Except.ok s2 ∧ alookup s2.map "b" = none :=
  delete_alias_safe _ "a" "b" "d" ⟨[1], [9]⟩ (by decide) (by decide) (by decide)

theorem createBody_lookup (s : Store) (name : String) (data : Option Val) (incore : Bool)
    (shape : Option (List Nat)) (s1 : Store) (v : Val)
    (h : createBody s name data incore shape = Except.ok (s1, v)) :
    alookup s1.map name = some v := by
  unfold createBody at h
  split at h
  · split at h
    · exact absurd h (by simp)
    · split at h
      · exact absurd h (by simp)
      · simp only [Except.ok.injEq, Prod.mk.injEq] at h
        obtain ⟨hs, hv⟩ := h
        subst hs
        subst hv
        exact alookup_asetd _ _ _
  · split at h
    · simp only [Except.ok.injEq, Prod.mk.injEq] at h
      obtain ⟨hs, hv⟩ := h
      subst hs
      subst hv
      exact alookup_asetd _ _ _
    · split at h
      · simp only [Except.ok.injEq, Prod.mk.injEq] at h
        obtain ⟨hs, hv⟩ := h
        subst hs
        subst hv
        exact alookup_asetd _ _ _
      · exact absurd h (by simp)

/-- C10: every successful `create` returns exactly the value the store maps
the key to immediately after the call — the source returns `self.get(name)`,
the stored Python object itself, not a copy — so a stage that mutates the
returned array in place (as `prepare_pt2_deriv` does when accumulating into
`pdA_G_ia` and `pdA_D_rdm1`) observes those writes through every later store
read of the same key. -/
theorem create_returns_stored (s : Store) (name : String) (data : Option Val)
    (incore : Bool) (shape : Option (List Nat)) (s1 : Store) (v : Val)
    (h : HybridDict.create s name data incore shape = Except.ok (s1, v)) :
    alookup s1.map name = some v := by
  unfold HybridDict.create at h
  split at h
  · exact createBody_lookup _ _ _ _ _ _ _ h
  · split at h
    · simp only [Except.ok.injEq, Prod.mk.injEq] at h
      obtain ⟨hs, hv⟩ := h
      subst hs
      subst hv
      simp [alookup_ains]
    · exact createBody_lookup _ _ _ _ _ _ _ h
    · split at h
      · exact createBody_lookup _ _ _ _ _ _ _ h
      · exact absurd h (by simp)

/-- C10 witness: creating "k" with shape `[2]` on the empty store stores and
returns the zero array of shape `[2]`. -/
theorem create_returns_stored_witness :
    alookup (⟨[("k", Val.mem ⟨[2], [0, 0]⟩)], []⟩ : Store).map "k"
      = some (Val.mem ⟨[2], [0, 0]⟩) :=
  create_returns_stored ⟨[], []⟩ "k" none true (some [2])
    ⟨[("k", Val.mem ⟨[2], [0, 0]⟩)], []⟩ (Val.mem ⟨[2], [0, 0]⟩) rfl

/-- C1 counterexample: re-creating key "k" (stored shape `[2]`, content
`[5, 7]`) with the mismatched requested shape `[3]` does NOT delete and
recreate.  The guarded comparison `self[name].shape == shape` is `False`
without raising, so control falls through past the `except` handler that
performs the delete; `setdefault` then keeps the old binding, and
`self.get(name)` returns the old array — shape `[2]`, content untouched —
with the store left unchanged. -/
theorem create_mismatch_keeps_old_entry :
    HybridDict.create ⟨[("k", Val.mem ⟨[2], [5, 7]⟩)], []⟩ "k" none true (some [3])
      = Except.ok (⟨[("k", Val.mem ⟨[2], [5, 7]⟩)], []⟩, Val.mem ⟨[2], [5, 7]⟩) := rfl

/-- C1 amended: calling `create` on an existing key behaves as follows.
If the stored shape equals the requested shape, the stored tensor is zeroed
in place and returned, other keys are untouched and no second physical
dataset is allocated (the backing file has a dataset for a name afterwards
exactly when it had one before).  If the stored value has no shape
attribute, the comparison raises `AttributeError`, the old entry is deleted,
and creation proceeds on the store without the key — in particular an
in-core request with only a shape stores and returns a fresh zero tensor of
the newly requested extent.  But if the stored value has a shape that merely
differs from the requested one, the old entry is NOT deleted: for an in-core
request the store is left unchanged and the old value is returned. -/
theorem create_existing_key_cases (s : Store) (name : String) (data : Option Val)
    (incore : Bool) (shape : Option (List Nat)) (v : Val)
    (hv : alookup s.map name = some v) :
    (matchesShape v shape = some true →
      ∃ s1, HybridDict.create s name data incore shape = Except.ok (s1, zeroVal v)
        ∧ alookup s1.map name = some (zeroVal v)
        ∧ (∀ k, k ≠ name → alookup s1.map k = alookup s.map k)
        ∧ (∀ k, (alookup s1.file k).isSome = (alookup s.file k).isSome))
    ∧ (∀ sh, v = Val.raw → incore = true → data = none → shape = some sh →
        HybridDict.create s name data incore shape
          = Except.ok (⟨(name, Val.mem (zerosArr sh)) :: aerase s.map name, s.file⟩,
              Val.mem (zerosArr sh)))
    ∧ (matchesShape v shape = some false → incore = true → (data.isSome ∨ shape.isSome) →
        HybridDict.create s name data incore shape = Except.ok (s, v)) := by
  refine ⟨?_, ?_, ?_⟩
  · intro hms
    cases v with
    | raw => simp [matchesShape] at hms
    | mem a =>
      refine ⟨⟨ains s.map name (Val.mem (zeroArr a)), s.file⟩, ?_, ?_, ?_, ?_⟩
      · simp only [HybridDict.create, hv, hms]
        rfl
      · rw [alookup_ains, if_pos rfl]
        rfl
      · intro k hk
        rw [alookup_ains, if_neg hk]
      · intro k
        rfl
    | disk n a =>
      cases hfa : alookup s.file n with
      | none =>
        refine ⟨⟨ains s.map name (Val.disk n (zeroArr a)), s.file⟩, ?_, ?_, ?_, ?_⟩
        · simp only [HybridDict.create, hv, hms, hfa]
          rfl
        · rw [alookup_ains, if_pos rfl]
          rfl
        · intro k hk
          rw [alookup_ains, if_neg hk]
        · intro k
          rfl
      | some fa =>
        refine ⟨⟨ains s.map name (Val.disk n (zeroArr a)), ains s.file n (zeroArr fa)⟩,
          ?_, ?_, ?_, ?_⟩
        · simp only [HybridDict.create, hv, hms, hfa]
          rfl
        · rw [alookup_ains, if_pos rfl]
          rfl
        · intro k hk
          rw [alookup_ains, if_neg hk]
        · intro k
          rw [alookup_ains]
          by_cases hkn : k = n
          · rw [if_pos hkn, hkn, hfa]
            rfl
          · rw [if_neg hkn]
  · intro sh hvr hin hdata hshape
    subst hvr
    subst hin
    subst hdata
    subst hshape
    have herase : alookup (aerase s.map name) name = none := by
      rw [alookup_aerase, if_pos rfl]
    simp only [HybridDict.create, hv, matchesShape, HybridDict.delete, Val.isDisk,
      createBody, herase, asetd, Option.isSome_none, Bool.false_eq_true, if_false]
    rfl
  · intro hms hin hds
    subst hin
    simp only [HybridDict.create, hv, hms]
    cases data with
    | some d =>
      simp only [createBody, asetd, hv, Option.isSome_some, if_true, Option.getD_some]
      rfl
    | none =>
      cases shape with
      | none => simp at hds
      | some sh =>
        simp only [createBody, asetd, hv, Option.isSome_some, if_true, Option.getD_some]
        rfl

/-- C1 witness: the matching-shape case at a concrete store — re-creating
"k" with its stored shape `[2]` zeroes it in place and returns the same
entry without allocating any dataset. -/
theorem create_existing_key_cases_witness :
    ∃ s1, HybridDict.create ⟨[("k", Val.mem ⟨[2], [5, 7]⟩)], []⟩ "k" none true (some [2])
        = Except.ok (s1, zeroVal (Val.mem ⟨[2], [5, 7]⟩))
      ∧ alookup s1.map "k" = some (zeroVal (Val.mem ⟨[2], [5, 7]⟩))
      ∧ (∀ k, k ≠ "k" →
          alookup s1.map k
            = alookup (⟨[("k", Val.mem ⟨[2], [5, 7]⟩)], []⟩ : Store).map k)
      ∧ (∀ k, (alookup s1.file k).isSome
          = (alookup (⟨[("k", Val.mem ⟨[2], [5, 7]⟩)], []⟩ : Store).file k).isSome) :=
  (create_existing_key_cases ⟨[("k", Val.mem ⟨[2], [5, 7]⟩)], []⟩ "k" none true
    (some [2]) (Val.mem ⟨[2], [5, 7]⟩) rfl).1 rfl

/-- C3 counterexample: with an aliased disk-backed entry — dictionary key
"a" bound to the dataset named "b" — `dump` followed by `pick` loses key
"a".  The restore re-associates disk entries by dataset name only, so the
restored store has key "b" but not "a", while the original store (both
before and after the mutating `dump`) maps "a"; `load "a"` on the restored
store yields the `None` substitute instead of the original content.  The
claimed key-set/residency/bit-identical-load preservation fails for an
arbitrary mix of tensors. -/
theorem dump_pick_loses_aliased_key :
    alookup (HybridDict.pick
        (HybridDict.dump ⟨[("a", Val.disk "b" ⟨[1], [2]⟩)], [("b", ⟨[1], [2]⟩)]⟩).2).map "a"
      = none
    ∧ alookup (⟨[("a", Val.disk "b" ⟨[1], [2]⟩)], [("b", ⟨[1], [2]⟩)]⟩ : Store).map "a"
      = some (Val.disk "b" ⟨[1], [2]⟩)
    ∧ alookup
        (HybridDict.dump ⟨[("a", Val.disk "b" ⟨[1], [2]⟩)], [("b", ⟨[1], [2]⟩)]⟩).1.map "a"
      = some (Val.disk "b" ⟨[1], [2]⟩)
    ∧ HybridDict.load (HybridDict.pick
        (HybridDict.dump ⟨[("a", Val.disk "b" ⟨[1], [2]⟩)], [("b", ⟨[1], [2]⟩)]⟩).2) "a"
      = LoadResult.objNone
    ∧ HybridDict.load ⟨[("a", Val.disk "b" ⟨[1], [2]⟩)], [("b", ⟨[1], [2]⟩)]⟩ "a"
      = LoadResult.arr ⟨[1], [2]⟩ :=
  ⟨rfl, rfl, rfl, rfl, rfl⟩

/-- C3 amended: checkpoint (`dump`) followed by restore (`pick`) into a
fresh store reproduces the store — same key set, same residency, the same
binding hence bit-identical `load` output for every key — provided the
store is alias-free and consistent: every disk-backed dictionary entry is
linked under its own key name with matching content, and every dataset of
the backing file is bound in the dictionary.  Stores built through
`create`/`delete` alone satisfy this; an aliased entry is the
counterexample.  Under the same conditions the refresh performed by `dump`
also leaves the original store's bindings unchanged. -/
theorem dump_pick_roundtrip (s : Store)
    (hm : (s.map.map Prod.fst).Nodup)
    (hf : (s.file.map Prod.fst).Nodup)
    (hdisk : ∀ p ∈ s.map, ∀ n a, p.2 = Val.disk n a → n = p.1 ∧ alookup s.file p.1 = some a)
    (hfile : ∀ p ∈ s.file, alookup s.map p.1 = some (Val.disk p.1 p.2)) :
    (∀ k, alookup (HybridDict.pick (HybridDict.dump s).2).map k = alookup s.map k)
    ∧ (∀ k, alookup (HybridDict.dump s).1.map k = alookup s.map k)
    ∧ (∀ k, HybridDict.load (HybridDict.pick (HybridDict.dump s).2) k
        = HybridDict.load s k) := by
  have h0 : ∀ k, alookup (s.file.foldl (fun m p => ains m p.1 (Val.disk p.1 p.2))
      ([] : List (String × Val))) k
      = match alookup s.file k with
        | some a => some (Val.disk k a)
        | none => none := by
    intro k
    rw [alookup_foldl_ains _ _ _ k hf]
    cases alookup s.file k <;> rfl
  have hD : ∀ k, alookup (s.map.filter (fun p => !(p.2.isDisk))) k
      = match alookup s.map k with
        | some v => if !(v.isDisk) then some v else none
        | none => none :=
    fun k => alookup_filter s.map k hm
  have hDnodup : ((s.map.filter (fun p => !(p.2.isDisk))).map Prod.fst).Nodup :=
    nodup_keys_filter s.map hm
  have hmapR : ∀ k, alookup (HybridDict.pick (HybridDict.dump s).2).map k
      = alookup s.map k := by
    intro k
    show alookup ((s.map.filter (fun p => !(p.2.isDisk))).foldl (fun m p => ains m p.1 p.2)
      (s.file.foldl (fun m p => ains m p.1 (Val.disk p.1 p.2)) [])) k = alookup s.map k
    rw [alookup_foldl_ains (fun _ v => v) _ _ k hDnodup, hD k, h0 k]
    cases hmk : alookup s.map k with
    | none =>
      cases hfk : alookup s.file k with
      | none => rfl
      | some a =>
        have := hfile _ (alookup_mem hfk)
        rw [hmk] at this
        cases this
    | some v =>
      cases v with
      | mem a => rfl
      | raw => rfl
      | disk n a =>
        obtain ⟨hn, hfa⟩ := hdisk _ (alookup_mem hmk) n a rfl
        subst hn
        rw [hfa]
        rfl
  refine ⟨hmapR, ?_, ?_⟩
  · intro k
    show alookup (s.file.foldl (fun m p => ains m p.1 (Val.disk p.1 p.2)) s.map) k
      = alookup s.map k
    rw [alookup_foldl_ains _ _ _ k hf]
    cases hfk : alookup s.file k with
    | none => rfl
    | some a =>
      have := hfile _ (alookup_mem hfk)
      rw [this]
  · intro k
    unfold HybridDict.load
    rw [hmapR k]

/-- C3 witness: the round-trip on a concrete alias-free store with one
in-memory entry "x" and one disk-backed entry "d". -/
theorem dump_pick_roundtrip_witness :
    (∀ k, alookup (HybridDict.pick (HybridDict.dump
        ⟨[("x", Val.mem ⟨[1], [3]⟩), ("d", Val.disk "d" ⟨[2], [4, 5]⟩)],
          [("d", ⟨[2], [4, 5]⟩)]⟩).2).map k
      = alookup (⟨[("x", Val.mem ⟨[1], [3]⟩), ("d", Val.disk "d" ⟨[2], [4, 5]⟩)],
          [("d", ⟨[2], [4, 5]⟩)]⟩ : Store).map k)
    ∧ (∀ k, alookup (HybridDict.dump
        ⟨[("x", Val.mem ⟨[1], [3]⟩), ("d", Val.disk "d" ⟨[2], [4, 5]⟩)],
          [("d", ⟨[2], [4, 5]⟩)]⟩).1.map k
      = alookup (⟨[("x", Val.mem ⟨[1], [3]⟩), ("d", Val.disk "d" ⟨[2], [4, 5]⟩)],
          [("d", ⟨[2], [4, 5]⟩)]⟩ : Store).map k)
    ∧ (∀ k, HybridDict.load (HybridDict.pick (HybridDict.dump
        ⟨[("x", Val.mem ⟨[1], [3]⟩), ("d", Val.disk "d" ⟨[2], [4, 5]⟩)],
          [("d", ⟨[2], [4, 5]⟩)]⟩).2) k
      = HybridDict.load ⟨[("x", Val.mem ⟨[1], [3]⟩), ("d", Val.disk "d" ⟨[2], [4, 5]⟩)],
          [("d", ⟨[2], [4, 5]⟩)]⟩ k) :=
  dump_pick_roundtrip
    ⟨[("x", Val.mem ⟨[1], [3]⟩), ("d", Val.disk "d" ⟨[2], [4, 5]⟩)], [("d", ⟨[2], [4, 5]⟩)]⟩
    (by decide) (by decide)
    (by
      intro p hp n a hpa
      rcases List.mem_cons.mp hp with h | h
      · subst h
        exact absurd hpa (by simp)
      · rcases List.mem_cons.mp h with h2 | h2
        · subst h2
          injection hpa with hn ha
          subst hn
          subst ha
          exact ⟨rfl, rfl⟩
        · simp at h2)
    (by
      intro p hp
      rcases List.mem_cons.mp hp with h | h
      · subst h
        rfl
      · simp at h)
